import Mathlib

/-!
Verification of the ipfs-user-mapping-proxy repository.

This file shallowly embeds the request handlers of the proxy
(proxy/add.go, proxy/dag_import.go, proxy/pin_ls.go, proxy/pin_rm.go)
and the ownership store operations (db/db.go) as executable Lean
definitions, and proves the behavioural claims about them.

The database table (keyed by username and hash) is modelled as a list of
records; each SQL statement of db/db.go becomes the corresponding pure
list transformation.  HTTP aspects are modelled explicitly: the
authenticated user is an Option String, the URL query is a list of
key/value pairs, the backend and the store are oracles passed as
parameters, and everything a handler writes to the caller is collected
in the result structure.
-/

set_option autoImplicit false

namespace IpfsProxy

/-- A content record, following the Content struct of db/db.go:
user, created timestamp, optional removed timestamp, hash, name, size. -/
structure Content where
  user : String
  created : Nat
  removed : Option Nat
  hash : String
  name : String
  size : Int
deriving DecidableEq, Repr

/-- DB.Add of db/db.go: INSERT INTO content (username, hash, name, size)
ON CONFLICT (username, hash) DO UPDATE SET removed = NULL.
On a key conflict only the removed marker is cleared; name, size and the
created timestamp of the existing row are untouched. -/
def DBAdd (now : Nat) (db : List Content) (user hash name : String) (size : Int) :
    List Content :=
  if db.any (fun c => c.user == user && c.hash == hash) then
    db.map fun c =>
      if c.user == user && c.hash == hash then { c with removed := none } else c
  else
    db ++ [{ user := user, created := now, removed := none,
             hash := hash, name := name, size := size }]

/-- DB.ListActiveContentByHash of db/db.go:
SELECT username, hash FROM content WHERE hash = ANY(hashes) AND removed IS NULL. -/
def ListActiveContentByHash (db : List Content) (hashes : List String) :
    List (String × String) :=
  (db.filter fun c => hashes.contains c.hash && c.removed == none).map
    fun c => (c.user, c.hash)

/-- DB.ListActiveContentByUser of db/db.go:
SELECT hash FROM content WHERE username = user AND removed IS NULL. -/
def ListActiveContentByUser (db : List Content) (user : String) : List String :=
  (db.filter fun c => c.user == user && c.removed == none).map fun c => c.hash

/-- DB.RemoveContentByHashForUser of db/db.go:
UPDATE content SET removed = NOW() WHERE username = user AND
hash = ANY(hashes) AND removed IS NULL. -/
def RemoveContentByHashForUser (now : Nat) (db : List Content) (user : String)
    (hashes : List String) : List Content :=
  db.map fun c =>
    if c.user == user && hashes.contains c.hash && c.removed == none then
      { c with removed := some now }
    else c

/-- Whether the URL query (a list of key/value pairs) has the key,
as url.Values.Has of the Go standard library. -/
def queryHas (key : String) (q : List (String × String)) : Bool :=
  q.any fun p => p.1 == key

/-- The first value of the key in the URL query, or the empty string,
as url.Values.Get of the Go standard library. -/
def queryGet (key : String) (q : List (String × String)) : String :=
  match q.find? (fun p => p.1 == key) with
  | some p => p.2
  | none => ""

/-- WrapWithDirectory of proxy/add.go: false if the query parameter is
absent, false if its value is the literal "false", true otherwise. -/
def WrapWithDirectory (q : List (String × String)) : Bool :=
  if !queryHas "wrap-with-directory" q then false
  else if queryGet "wrap-with-directory" q == "false" then false
  else true

/-- Stats of proxy/dag_import.go: false if the stats query parameter is
absent, false if its value is the literal "false", true otherwise. -/
def Stats (q : List (String × String)) : Bool :=
  if !queryHas "stats" q then false
  else if queryGet "stats" q == "false" then false
  else true

/-- Modelled from the Go standard library strconv helpers used by the
handlers: parse a non-empty run of decimal digits. -/
def parseNatDigits (cs : List Char) : Option Nat :=
  if cs.isEmpty then none
  else
    cs.foldl
      (fun acc ch =>
        match acc with
        | none => none
        | some n => if ch.isDigit then some (n * 10 + (ch.toNat - 48)) else none)
      (some 0)

/-- Modelled from the Go standard library: strconv.ParseInt(s, 10, 64).
Optional sign, decimal digits, int64 range check. -/
def parseInt64 (s : String) : Option Int :=
  match s.data with
  | '+' :: rest =>
    (parseNatDigits rest).bind fun n =>
      if (n : Int) ≤ 2 ^ 63 - 1 then some (n : Int) else none
  | '-' :: rest =>
    (parseNatDigits rest).bind fun n =>
      if (n : Int) ≤ 2 ^ 63 then some (-(n : Int)) else none
  | cs =>
    (parseNatDigits cs).bind fun n =>
      if (n : Int) ≤ 2 ^ 63 - 1 then some (n : Int) else none

/-- An identity u actively owns content h in the store: there is a
record for (u, h) whose removed marker is null. -/
def isActiveOwner (db : List Content) (u h : String) : Prop :=
  ∃ c ∈ db, c.user = u ∧ c.hash = h ∧ c.removed = none

instance (db : List Content) (u h : String) : Decidable (isActiveOwner db u h) := by
  unfold isActiveOwner; infer_instance

/-- Some identity other than user actively owns content h. -/
def hasOtherActiveOwner (db : List Content) (user h : String) : Prop :=
  ∃ c ∈ db, c.user ≠ user ∧ c.hash = h ∧ c.removed = none

instance (db : List Content) (user h : String) :
    Decidable (hasOtherActiveOwner db user h) := by
  unfold hasOtherActiveOwner; infer_instance

/-- The backend's behaviour for the single pin-removal POST issued by
handlePinRm: either the request cannot be made at all (network failure),
or the backend answers with a status code and body. -/
inductive BackendPinRm where
  | unreachable
  | answered (code : Nat) (body : String)
deriving DecidableEq, Repr

/-- The response handlePinRm writes to the caller. -/
inductive PinRmResp where
  /-- http.Error with a status code and message. -/
  | errorText (status : Nat) (msg : String)
  /-- http.Error with StatusNotFound, naming the ids that are not pinned
  by the caller ("not pinned or pinned indirectly"). -/
  | notPinned (ids : Finset String)
  /-- writeResponse: the JSON success body listing Pins. -/
  | pins (ids : List String)
  /-- A non-success backend status and body relayed verbatim. -/
  | relayed (status : Nat) (body : String)
deriving DecidableEq

/-- The HTTP status code of a PinRmResp, as written by the Go handler. -/
def PinRmResp.status : PinRmResp → Nat
  | .errorText s _ => s
  | .notPinned _ => 404
  | .pins _ => 200
  | .relayed s _ => s

/-- The outcome of one handlePinRm invocation: the final store contents,
the response written to the caller, and the argument set of the backend
pin-removal call (none when the backend was not called). -/
structure PinRmOut where
  db : List Content
  resp : PinRmResp
  backendArgs : Option (Finset String)
deriving DecidableEq

/-- One iteration of the reconciliation loop of handlePinRm
(proxy/pin_rm.go): given the pair sets (checkArgs, backendArgs) and an
active record (user, hash), delete the hash from backendArgs when the
record belongs to another user, and from checkArgs when it belongs to
the caller. -/
def reconcileStep (user : String) (s : Finset String × Finset String)
    (p : String × String) : Finset String × Finset String :=
  if p.1 != user then (s.1, s.2.erase p.2) else (s.1.erase p.2, s.2)

/-- handlePinRm of proxy/pin_rm.go.  Inputs: the clock, the basic-auth
user (none models a request without credentials), the URL query, the
store contents, the backend oracle, and success oracles for the two
store calls (ListActiveContentByHash and RemoveContentByHashForUser). -/
def handlePinRm (now : Nat) (auth : Option String) (query : List (String × String))
    (db : List Content) (backend : BackendPinRm) (listOk removeOk : Bool) :
    PinRmOut :=
  match auth with
  | none => ⟨db, .errorText 401 "no basic auth", none⟩
  | some user =>
    if query.any (fun p => p.1 != "arg") then
      ⟨db, .errorText 400 "only arg arguments are allowed", none⟩
    else
      let toRemove := (query.filter fun p => p.1 == "arg").map fun p => p.2
      if toRemove.isEmpty then
        ⟨db, .errorText 400 "argument ipfs-path is required", none⟩
      else if !listOk then
        ⟨db, .errorText 500 "db error", none⟩
      else
        let userHashes := ListActiveContentByHash db toRemove
        let sets := userHashes.foldl (reconcileStep user)
          (toRemove.toFinset, toRemove.toFinset)
        if sets.1 = ∅ then
          if !removeOk then
            ⟨db, .errorText 500 "db error", none⟩
          else
            let db2 := RemoveContentByHashForUser now db user toRemove
            if sets.2 = ∅ then
              ⟨db2, .pins toRemove, none⟩
            else
              match backend with
              | .unreachable => ⟨db2, .pins toRemove, some sets.2⟩
              | .answered code body =>
                if code != 200 then ⟨db2, .relayed code body, some sets.2⟩
                else ⟨db2, .pins toRemove, some sets.2⟩
        else
          ⟨db, .notPinned sets.1, none⟩

/-- The response handlePinLs writes to the caller. -/
inductive PinLsResp where
  | errorText (status : Nat) (msg : String)
  /-- The JSON success body: for every entry (h, t) the Keys object maps
  the content id h to the descriptor with Type field t. -/
  | keysOk (entries : List (String × String))
deriving DecidableEq, Repr

/-- The outcome of one handlePinLs invocation.  backendCalled records
whether any request to the backend was made; the handler of
proxy/pin_ls.go serves purely from the store. -/
structure PinLsOut where
  resp : PinLsResp
  backendCalled : Bool
deriving DecidableEq, Repr

/-- handlePinLs of proxy/pin_ls.go. -/
def handlePinLs (auth : Option String) (query : List (String × String))
    (db : List Content) (listOk : Bool) : PinLsOut :=
  match auth with
  | none => ⟨.errorText 401 "no basic auth", false⟩
  | some user =>
    if !query.isEmpty then
      ⟨.errorText 400 "no arguments are allowed", false⟩
    else if !listOk then
      ⟨.errorText 500 "db error", false⟩
    else
      ⟨.keysOk ((ListActiveContentByUser db user).map fun h => (h, "recursive")),
        false⟩

/-- AddResponseMessage of proxy/add.go: one decoded JSON object of the
streaming add response. -/
structure AddResponseMessage where
  Name : String
  Hash : String
  Size : String
deriving DecidableEq, Repr

/-- The internal error with which handleAdd aborts (the value of its
err result in proxy/add.go). -/
inductive AddErr where
  | noBasicAuth
  | invalidQueryParam
  | noResponseMessage
  | parseSize
  | storeError
deriving DecidableEq, Repr

/-- The outcome of one handleAdd invocation: the final store contents,
every (status, message) pair the handler itself wrote to the caller via
http.Error, whether the backend response was relayed through the
response writer wrapper, and the handler's internal error. -/
structure AddOut where
  db : List Content
  writes : List (Nat × String)
  relayed : Bool
  err : Option AddErr
deriving DecidableEq, Repr

/-- handleAdd of proxy/add.go.  The backend interaction is modelled by
the status code the reverse proxy relayed and the already-decoded list
of response messages; storeOk is the success oracle of the DB.Add call. -/
def handleAdd (now : Nat) (auth : Option String) (query : List (String × String))
    (backendStatus : Nat) (messages : List AddResponseMessage)
    (db : List Content) (storeOk : Bool) : AddOut :=
  match auth with
  | none =>
    { db := db, writes := [(401, "no basic auth")], relayed := false,
      err := some .noBasicAuth }
  | some user =>
    if query.any (fun p => p.1 != "wrap-with-directory") then
      { db := db, writes := [(403, "only wrap-with-directory argument is allowed")],
        relayed := false, err := some .invalidQueryParam }
    else if backendStatus != 200 then
      { db := db, writes := [], relayed := true, err := none }
    else
      match messages with
      | [] =>
        { db := db, writes := [], relayed := true, err := some .noResponseMessage }
      | m0 :: rest =>
        let lastMsg := (m0 :: rest).getLast (List.cons_ne_nil m0 rest)
        let name :=
          if WrapWithDirectory query then m0.Name ++ " (wrapped)" else lastMsg.Name
        match parseInt64 lastMsg.Size with
        | none =>
          { db := db, writes := [], relayed := true, err := some .parseSize }
        | some size =>
          if storeOk then
            { db := DBAdd now db user lastMsg.Hash name size, writes := [],
              relayed := true, err := none }
          else
            { db := db, writes := [], relayed := true, err := some .storeError }

/-- RootMeta of proxy/dag_import.go; the Cid map is modelled as a list
of key/value pairs. -/
structure RootMeta where
  Cid : List (String × String)
  PinErrorMsg : String
deriving DecidableEq, Repr

/-- CarImportStats of proxy/dag_import.go. -/
structure CarImportStats where
  BlockCount : Int
  BlockBytesCount : Int
deriving DecidableEq, Repr

/-- DAGImportResponseMessage of proxy/dag_import.go. -/
structure DAGImportResponseMessage where
  Root : Option RootMeta
  Stats : Option CarImportStats
deriving DecidableEq, Repr

/-- The internal error with which handleDAGImport aborts. -/
inductive DAGErr where
  | noBasicAuth
  | invalidQueryParam
  | statsFalse
  | proxyError (code : Nat)
  | pinError (msg : String)
  | noRootCid
  | storeError
deriving DecidableEq, Repr

/-- The outcome of one handleDAGImport invocation. -/
structure DAGOut where
  db : List Content
  writes : List (Nat × String)
  err : Option DAGErr
deriving DecidableEq, Repr

/-- The decode loop of handleDAGImport (proxy/dag_import.go): walk the
decoded messages accumulating root cids; abort on a pin error or a root
without a "/" key; on the first stats message add one record per
accumulated cid and stop.  storeOk is the success oracle of the DB.Add
calls (a failing store fails the first Add, leaving the store as it
was). -/
def dagLoop (now : Nat) (user : String) (storeOk : Bool) :
    List DAGImportResponseMessage → List String → List Content →
    List Content × Option DAGErr
  | [], _, db => (db, none)
  | msg :: rest, cids, db =>
    let rootRes : Except DAGErr (List String) :=
      match msg.Root with
      | none => .ok cids
      | some root =>
        if root.PinErrorMsg != "" then .error (.pinError root.PinErrorMsg)
        else
          match root.Cid.find? (fun p => p.1 == "/") with
          | none => .error .noRootCid
          | some p => .ok (cids ++ [p.2])
    match rootRes with
    | .error e => (db, some e)
    | .ok cids2 =>
      match msg.Stats with
      | some stats =>
        if storeOk || cids2.isEmpty then
          (cids2.foldl
            (fun d cid =>
              DBAdd now d user cid (cid ++ " (dag import)") stats.BlockBytesCount)
            db, none)
        else
          (db, some .storeError)
      | none => dagLoop now user storeOk rest cids2 db

/-- handleDAGImport of proxy/dag_import.go. -/
def handleDAGImport (now : Nat) (auth : Option String)
    (query : List (String × String)) (backendStatus : Nat)
    (messages : List DAGImportResponseMessage) (db : List Content)
    (storeOk : Bool) : DAGOut :=
  match auth with
  | none =>
    { db := db, writes := [(401, "no basic auth")], err := some .noBasicAuth }
  | some user =>
    if query.any (fun p => p.1 != "stats") then
      { db := db, writes := [(400, "only stats argument is allowed")],
        err := some .invalidQueryParam }
    else if queryHas "stats" query && !Stats query then
      { db := db, writes := [(400, "stats argument cannot be false")],
        err := some .statsFalse }
    else if backendStatus != 200 then
      { db := db, writes := [], err := some (.proxyError backendStatus) }
    else
      match dagLoop now user storeOk messages [] db with
      | (db2, e) => { db := db2, writes := [], err := e }

theorem mem_listActiveContentByHash (db : List Content) (hashes : List String)
    (u h : String) :
    (u, h) ∈ ListActiveContentByHash db hashes ↔
      h ∈ hashes ∧ ∃ c ∈ db, c.user = u ∧ c.hash = h ∧ c.removed = none := by
  simp only [ListActiveContentByHash, List.mem_map, List.mem_filter,
    Bool.and_eq_true, beq_iff_eq, List.contains, List.elem_iff]
  constructor
  · rintro ⟨c, ⟨hc, hmem, hrem⟩, heq⟩
    rw [Prod.mk.injEq] at heq
    obtain ⟨h1, h2⟩ := heq
    exact ⟨h2 ▸ hmem, c, hc, h1, h2, hrem⟩
  · rintro ⟨hh, c, hc, hu, hh2, hrem⟩
    exact ⟨c, ⟨hc, hh2 ▸ hh, hrem⟩, by simp [hu, hh2]⟩

theorem reconcile_fst_mem (user : String) (pairs : List (String × String))
    (s : Finset String × Finset String) (x : String) :
    x ∈ (pairs.foldl (reconcileStep user) s).1 ↔
      x ∈ s.1 ∧ ∀ p ∈ pairs, ¬(p.1 = user ∧ p.2 = x) := by
  induction pairs generalizing s with
  | nil => simp
  | cons p t ih =>
    rw [List.foldl_cons, ih]
    unfold reconcileStep
    by_cases hp : p.1 = user
    · simp [hp, Finset.mem_erase]
      tauto
    · simp [hp, Finset.mem_erase]

theorem reconcile_snd_mem (user : String) (pairs : List (String × String))
    (s : Finset String × Finset String) (x : String) :
    x ∈ (pairs.foldl (reconcileStep user) s).2 ↔
      x ∈ s.2 ∧ ∀ p ∈ pairs, ¬(¬p.1 = user ∧ p.2 = x) := by
  induction pairs generalizing s with
  | nil => simp
  | cons p t ih =>
    rw [List.foldl_cons, ih]
    unfold reconcileStep
    by_cases hp : p.1 = user
    · simp [hp, Finset.mem_erase]
    · simp [hp, Finset.mem_erase]
      tauto

theorem checkArgs_spec (db : List Content) (user : String) (R : List String) :
    ((ListActiveContentByHash db R).foldl (reconcileStep user)
        (R.toFinset, R.toFinset)).1
      = R.toFinset.filter fun h => ¬ isActiveOwner db user h := by
  ext x
  rw [reconcile_fst_mem]
  simp only [Finset.mem_filter, List.mem_toFinset]
  constructor
  · rintro ⟨hx, hall⟩
    refine ⟨hx, fun hact => ?_⟩
    have hmem : (user, x) ∈ ListActiveContentByHash db R :=
      (mem_listActiveContentByHash db R user x).mpr ⟨hx, hact⟩
    exact hall _ hmem ⟨rfl, rfl⟩
  · rintro ⟨hx, hna⟩
    refine ⟨hx, fun p hp hcond => ?_⟩
    obtain ⟨h1, h2⟩ := hcond
    have hpx : p = (user, x) := by
      cases p
      simp only [Prod.mk.injEq]
      exact ⟨h1, h2⟩
    rw [hpx] at hp
    exact hna ((mem_listActiveContentByHash db R user x).mp hp).2

theorem backendArgs_spec (db : List Content) (user : String) (R : List String) :
    ((ListActiveContentByHash db R).foldl (reconcileStep user)
        (R.toFinset, R.toFinset)).2
      = R.toFinset.filter fun h => ¬ hasOtherActiveOwner db user h := by
  ext x
  rw [reconcile_snd_mem]
  simp only [Finset.mem_filter, List.mem_toFinset]
  constructor
  · rintro ⟨hx, hall⟩
    refine ⟨hx, fun hact => ?_⟩
    obtain ⟨c, hc, hcu, hch, hcr⟩ := hact
    have hmem : (c.user, x) ∈ ListActiveContentByHash db R :=
      (mem_listActiveContentByHash db R c.user x).mpr ⟨hx, c, hc, rfl, hch, hcr⟩
    exact hall _ hmem ⟨hcu, rfl⟩
  · rintro ⟨hx, hna⟩
    refine ⟨hx, fun p hp hcond => ?_⟩
    obtain ⟨h1, h2⟩ := hcond
    obtain ⟨-, c, hc, hcu, hch, hcr⟩ :=
      (mem_listActiveContentByHash db R p.1 x).mp (h2 ▸ hp)
    exact hna ⟨c, hc, hcu ▸ h1, hch, hcr⟩

theorem argQuery_any (R : List String) :
    ((R.map fun h => ("arg", h)).any fun p => p.1 != "arg") = false := by
  induction R with
  | nil => rfl
  | cons a t _ => simp

theorem argQuery_toRemove (R : List String) :
    ((R.map fun h => ("arg", h)).filter fun p => p.1 == "arg").map (fun p => p.2)
      = R := by
  induction R with
  | nil => rfl
  | cons a t ih => simpa using ih

theorem removeContent_eq_propMap (now : Nat) (db : List Content) (user : String)
    (hashes : List String) :
    RemoveContentByHashForUser now db user hashes
      = db.map fun c =>
          if c.user = user ∧ c.hash ∈ hashes ∧ c.removed = none then
            { c with removed := some now }
          else c := by
  unfold RemoveContentByHashForUser
  refine List.map_congr_left fun c _ => ?_
  refine if_congr ?_ rfl rfl
  simp [Bool.and_eq_true, beq_iff_eq, List.contains, List.elem_iff, and_assoc]

/-- C1: Pin-remove reconciliation.  For every requested id list R
(arriving as repeated arg query values) whose ids the caller all
actively owns, the backend pin-removal call carries exactly the ids of
R for which no identity other than the caller has an active record (no
call is made when that set is empty), and the store deactivates exactly
the caller's active records for ids in R, leaving every other record
unchanged. -/
theorem pin_rm_reconciliation (now : Nat) (user : String) (R : List String)
    (db : List Content) (backend : BackendPinRm)
    (hne : R ≠ [])
    (hown : ∀ h ∈ R, isActiveOwner db user h) :
    (handlePinRm now (some user) (R.map fun h => ("arg", h)) db backend
        true true).backendArgs
      = (if (R.toFinset.filter fun h => ¬ hasOtherActiveOwner db user h) = ∅
          then none
          else some (R.toFinset.filter fun h => ¬ hasOtherActiveOwner db user h))
    ∧ (handlePinRm now (some user) (R.map fun h => ("arg", h)) db backend
        true true).db
      = db.map (fun c =>
          if c.user = user ∧ c.hash ∈ R ∧ c.removed = none then
            { c with removed := some now }
          else c) := by
  have hchk : ((ListActiveContentByHash db R).foldl (reconcileStep user)
      (R.toFinset, R.toFinset)).1 = ∅ := by
    rw [checkArgs_spec, Finset.filter_eq_empty_iff]
    intro h hx
    simp only [not_not]
    exact hown h (List.mem_toFinset.mp hx)
  have hemp : R.isEmpty = false := by
    cases R with
    | nil => exact absurd rfl hne
    | cons a t => rfl
  have hdb := removeContent_eq_propMap now db user R
  unfold handlePinRm
  rw [argQuery_any]
  simp only [Bool.false_eq_true, if_false, argQuery_toRemove, hemp, hchk,
    Bool.not_true, if_true, if_pos rfl, backendArgs_spec]
  constructor
  · by_cases hS : (R.toFinset.filter fun h => ¬ hasOtherActiveOwner db user h) = ∅
    · simp [hS]
    · simp only [hS, if_false]
      cases backend with
      | unreachable => rfl
      | answered code body => split <;> first | rfl | (split <;> rfl)
  · split
    · exact hdb
    · cases backend with
      | unreachable => exact hdb
      | answered code body =>
        split <;> first | exact hdb | (split <;> exact hdb)

/-- Store used by the pin-remove witnesses: john actively owns h1 and
h2, shawn actively owns h2 and h3. -/
def dbPinRmW : List Content :=
  [⟨"john", 1, none, "h1", "a.jpg", 10⟩,
   ⟨"john", 2, none, "h2", "b.jpg", 20⟩,
   ⟨"shawn", 3, none, "h2", "b.jpg", 20⟩,
   ⟨"shawn", 4, none, "h3", "c.jpg", 30⟩]

theorem pin_rm_reconciliation_witness :
    (["h1", "h2"] ≠ ([] : List String)
      ∧ ∀ h ∈ ["h1", "h2"], isActiveOwner dbPinRmW "john" h)
    ∧ ((handlePinRm 9 (some "john")
          ((["h1", "h2"]).map fun h => ("arg", h)) dbPinRmW
          (.answered 200 "") true true).backendArgs
        = (if ((["h1", "h2"]).toFinset.filter
              fun h => ¬ hasOtherActiveOwner dbPinRmW "john" h) = ∅
            then none
            else some ((["h1", "h2"]).toFinset.filter
              fun h => ¬ hasOtherActiveOwner dbPinRmW "john" h))
      ∧ (handlePinRm 9 (some "john")
          ((["h1", "h2"]).map fun h => ("arg", h)) dbPinRmW
          (.answered 200 "") true true).db
        = dbPinRmW.map (fun c =>
            if c.user = "john" ∧ c.hash ∈ ["h1", "h2"] ∧ c.removed = none then
              { c with removed := some 9 }
            else c)) :=
  ⟨⟨by decide, by decide⟩,
    pin_rm_reconciliation 9 "john" ["h1", "h2"] dbPinRmW (.answered 200 "")
      (by decide) (by decide)⟩

/-- C2: Pin-remove ownership gate atomicity.  Whenever the requested id
list contains an id the caller does not actively own, the handler
answers with a 404 error naming exactly the unowned ids, leaves the
store untouched, and makes no backend call. -/
theorem pin_rm_ownership_gate (now : Nat) (user : String) (R : List String)
    (db : List Content) (backend : BackendPinRm) (removeOk : Bool)
    (hne : R ≠ [])
    (hbad : ∃ h ∈ R, ¬ isActiveOwner db user h) :
    (handlePinRm now (some user) (R.map fun h => ("arg", h)) db backend
        true removeOk).resp
      = .notPinned (R.toFinset.filter fun h => ¬ isActiveOwner db user h)
    ∧ (handlePinRm now (some user) (R.map fun h => ("arg", h)) db backend
        true removeOk).resp.status = 404
    ∧ (handlePinRm now (some user) (R.map fun h => ("arg", h)) db backend
        true removeOk).db = db
    ∧ (handlePinRm now (some user) (R.map fun h => ("arg", h)) db backend
        true removeOk).backendArgs = none := by
  have hchkne :
      ¬ (R.toFinset.filter fun h => ¬ isActiveOwner db user h) = ∅ := by
    obtain ⟨h, hh, hna⟩ := hbad
    exact Finset.ne_empty_of_mem
      (Finset.mem_filter.mpr ⟨List.mem_toFinset.mpr hh, hna⟩)
  have hemp : R.isEmpty = false := by
    cases R with
    | nil => exact absurd rfl hne
    | cons a t => rfl
  unfold handlePinRm
  rw [argQuery_any]
  simp only [Bool.false_eq_true, if_false, argQuery_toRemove, hemp,
    Bool.not_true, if_true, checkArgs_spec, if_neg hchkne]
  refine ⟨?_, ?_, ?_, ?_⟩ <;> trivial

theorem pin_rm_ownership_gate_witness :
    (["h1", "hX"] ≠ ([] : List String)
      ∧ ∃ h ∈ ["h1", "hX"], ¬ isActiveOwner dbPinRmW "john" h)
    ∧ ((handlePinRm 9 (some "john")
          ((["h1", "hX"]).map fun h => ("arg", h)) dbPinRmW
          (.answered 200 "") true true).resp
        = .notPinned ((["h1", "hX"]).toFinset.filter
            fun h => ¬ isActiveOwner dbPinRmW "john" h)
      ∧ (handlePinRm 9 (some "john")
          ((["h1", "hX"]).map fun h => ("arg", h)) dbPinRmW
          (.answered 200 "") true true).resp.status = 404
      ∧ (handlePinRm 9 (some "john")
          ((["h1", "hX"]).map fun h => ("arg", h)) dbPinRmW
          (.answered 200 "") true true).db = dbPinRmW
      ∧ (handlePinRm 9 (some "john")
          ((["h1", "hX"]).map fun h => ("arg", h)) dbPinRmW
          (.answered 200 "") true true).backendArgs = none) :=
  ⟨⟨by decide, by decide⟩,
    pin_rm_ownership_gate 9 "john" ["h1", "hX"] dbPinRmW (.answered 200 "")
      true (by decide) (by decide)⟩

/-- C3: Pin-remove backend unreachability recovery.  When the caller
actively owns every requested id and the backend is unreachable, the
handler still writes the 200 success response listing the full
originally requested id list, and the store keeps the committed
deactivation of those ids for the caller. -/
theorem pin_rm_backend_unreachable (now : Nat) (user : String)
    (R : List String) (db : List Content)
    (hne : R ≠ [])
    (hown : ∀ h ∈ R, isActiveOwner db user h) :
    (handlePinRm now (some user) (R.map fun h => ("arg", h)) db
        .unreachable true true).resp = .pins R
    ∧ (handlePinRm now (some user) (R.map fun h => ("arg", h)) db
        .unreachable true true).resp.status = 200
    ∧ (handlePinRm now (some user) (R.map fun h => ("arg", h)) db
        .unreachable true true).db
      = RemoveContentByHashForUser now db user R := by
  have hchk : ((ListActiveContentByHash db R).foldl (reconcileStep user)
      (R.toFinset, R.toFinset)).1 = ∅ := by
    rw [checkArgs_spec, Finset.filter_eq_empty_iff]
    intro h hx
    simp only [not_not]
    exact hown h (List.mem_toFinset.mp hx)
  have hemp : R.isEmpty = false := by
    cases R with
    | nil => exact absurd rfl hne
    | cons a t => rfl
  unfold handlePinRm
  rw [argQuery_any]
  simp only [Bool.false_eq_true, if_false, argQuery_toRemove, hemp, hchk,
    Bool.not_true, if_true, if_pos rfl]
  refine ⟨?_, ?_, ?_⟩ <;> split <;> rfl

theorem pin_rm_backend_unreachable_witness :
    (["h1"] ≠ ([] : List String)
      ∧ ∀ h ∈ ["h1"], isActiveOwner dbPinRmW "john" h)
    ∧ ((handlePinRm 9 (some "john") ((["h1"]).map fun h => ("arg", h))
          dbPinRmW .unreachable true true).resp = .pins ["h1"]
      ∧ (handlePinRm 9 (some "john") ((["h1"]).map fun h => ("arg", h))
          dbPinRmW .unreachable true true).resp.status = 200
      ∧ (handlePinRm 9 (some "john") ((["h1"]).map fun h => ("arg", h))
          dbPinRmW .unreachable true true).db
        = RemoveContentByHashForUser 9 dbPinRmW "john" ["h1"]) :=
  ⟨⟨by decide, by decide⟩,
    pin_rm_backend_unreachable 9 "john" ["h1"] dbPinRmW
      (by decide) (by decide)⟩

/-- C9: Pin-list response.  For an authenticated request with no query
parameters the handler makes no backend request and returns a Keys
object whose keys are exactly the caller's active content ids, each
mapped to the constant recursive descriptor; the Keys object is empty
exactly when the identity has no active record. -/
theorem pin_ls_response (user : String) (db : List Content) :
    ∃ entries,
      (handlePinLs (some user) [] db true).resp = .keysOk entries
      ∧ (∀ h, h ∈ entries.map Prod.fst ↔ isActiveOwner db user h)
      ∧ (∀ e ∈ entries, e.2 = "recursive")
      ∧ (entries = [] ↔ ∀ h, ¬ isActiveOwner db user h)
      ∧ (handlePinLs (some user) [] db true).backendCalled = false := by
  have hmem : ∀ h, (h ∈ ((ListActiveContentByUser db user).map
      fun h => (h, "recursive")).map Prod.fst ↔ isActiveOwner db user h) := by
    intro h
    simp only [List.map_map, ListActiveContentByUser, List.mem_map,
      List.mem_filter, Bool.and_eq_true, beq_iff_eq, Function.comp,
      isActiveOwner]
    constructor
    · rintro ⟨c, ⟨hc, hu, hrem⟩, heq⟩
      exact ⟨c, hc, hu, heq, hrem⟩
    · rintro ⟨c, hc, hu, hh, hrem⟩
      exact ⟨c, ⟨hc, hu, hrem⟩, hh⟩
  refine ⟨(ListActiveContentByUser db user).map fun h => (h, "recursive"),
    rfl, hmem, ?_, ?_, rfl⟩
  · intro e he
    obtain ⟨h, -, rfl⟩ := List.mem_map.mp he
    rfl
  · constructor
    · intro hnil h
      rw [← hmem h, hnil]
      simp
    · intro hna
      have hfst : ((ListActiveContentByUser db user).map
          fun h => (h, "recursive")).map Prod.fst = [] := by
        rw [List.eq_nil_iff_forall_not_mem]
        intro h hh
        exact hna h ((hmem h).mp hh)
      simpa using hfst

/-- C10: The store's deactivate operation leaves every record that is
already marked removed entirely unchanged; it preserves the table
length, and only rows that are currently active can be updated. -/
theorem remove_content_immutable_when_removed (now : Nat) (user : String)
    (hashes : List String) (db : List Content) (i : Nat) (c : Content)
    (t : Nat)
    (hget : db[i]? = some c)
    (hrem : c.removed = some t) :
    (RemoveContentByHashForUser now db user hashes).length = db.length
    ∧ (RemoveContentByHashForUser now db user hashes)[i]? = some c := by
  refine ⟨by simp [RemoveContentByHashForUser], ?_⟩
  unfold RemoveContentByHashForUser
  rw [List.getElem?_map, hget]
  simp [hrem]

theorem remove_content_immutable_when_removed_witness :
    ((([⟨"john", 1, some 5, "h1", "a", 10⟩] : List Content)[0]?
        = some ⟨"john", 1, some 5, "h1", "a", 10⟩)
      ∧ (Content.removed ⟨"john", 1, some 5, "h1", "a", 10⟩ = some 5))
    ∧ ((RemoveContentByHashForUser 9 [⟨"john", 1, some 5, "h1", "a", 10⟩]
          "john" ["h1"]).length
        = ([⟨"john", 1, some 5, "h1", "a", 10⟩] : List Content).length
      ∧ (RemoveContentByHashForUser 9 [⟨"john", 1, some 5, "h1", "a", 10⟩]
          "john" ["h1"])[0]? = some ⟨"john", 1, some 5, "h1", "a", 10⟩) :=
  ⟨⟨by decide, by decide⟩,
    remove_content_immutable_when_removed 9 "john" ["h1"]
      [⟨"john", 1, some 5, "h1", "a", 10⟩] 0
      ⟨"john", 1, some 5, "h1", "a", 10⟩ 5 (by decide) (by decide)⟩

/-- C5 counterexample: the claim states that an absent
wrap-with-directory parameter evaluates to true; on the empty query the
flag evaluates to false. -/
theorem wrap_with_directory_absent_counterexample :
    ¬ (WrapWithDirectory [] = true) := by decide

theorem lookup_eq_find?_map (k : String) (q : List (String × String)) :
    List.lookup k q = ((q.find? fun p => p.1 == k).map fun p => p.2) := by
  induction q with
  | nil => rfl
  | cons p t ih =>
    cases p with
    | mk a b =>
      by_cases h : a = k
      · subst h
        simp [List.lookup_cons, List.find?]
      · have h1 : (k == a) = false := beq_eq_false_iff_ne.mpr (Ne.symm h)
        have h2 : (a == k) = false := beq_eq_false_iff_ne.mpr h
        simp [List.lookup_cons, List.find?, h1, h2, ih]

/-- C5 amended: the wrap-with-directory flag evaluates to false when
the parameter is absent; when the parameter is present it evaluates to
true unless its first value is the literal string false. -/
theorem wrap_with_directory_flag (q : List (String × String)) :
    WrapWithDirectory q = true ↔
      (List.lookup "wrap-with-directory" q).isSome = true
      ∧ List.lookup "wrap-with-directory" q ≠ some "false" := by
  unfold WrapWithDirectory queryHas queryGet
  rw [lookup_eq_find?_map]
  cases hf : q.find? (fun p => p.1 == "wrap-with-directory") with
  | none =>
    have hany : (q.any fun p => p.1 == "wrap-with-directory") = false := by
      rw [List.any_eq_false]
      intro x hx hpx
      have hsome : (q.find? fun p => p.1 == "wrap-with-directory").isSome
          = true :=
        List.find?_isSome.mpr ⟨x, hx, hpx⟩
      rw [hf] at hsome
      exact absurd hsome (by simp)
    simp [hany, hf]
  | some p =>
    have hany : (q.any fun p => p.1 == "wrap-with-directory") = true := by
      have hp := List.find?_some hf
      have hmem := List.mem_of_find?_eq_some hf
      exact List.any_eq_true.mpr ⟨p, hmem, hp⟩
    by_cases hv : p.2 = "false"
    · simp [hany, hf, hv]
    · simp [hany, hf, hv]

/-- C4: Upload canonicalization.  On a successful add request whose
decoded backend response is non-empty, the stored record takes its hash
and size from the last decoded message; its label is the last message's
name, except that when directory-wrapping was requested it is the first
message's name suffixed with the wrapped indicator.  A decoded sequence
of zero messages makes the handler fail with the no-response-message
error and write nothing to the store. -/
theorem add_canonicalization (now : Nat) (user : String)
    (query : List (String × String)) (db : List Content)
    (minit : List AddResponseMessage) (m0 mlast : AddResponseMessage) (n : Int)
    (hq : ∀ p ∈ query, p.1 = "wrap-with-directory")
    (hhead : (minit ++ [mlast]).head? = some m0)
    (hparse : parseInt64 mlast.Size = some n) :
    ((handleAdd now (some user) query 200 (minit ++ [mlast]) db true).db
        = DBAdd now db user mlast.Hash
            (if WrapWithDirectory query = true
             then m0.Name ++ " (wrapped)" else mlast.Name) n
      ∧ (handleAdd now (some user) query 200 (minit ++ [mlast]) db true).err
          = none)
    ∧ ((handleAdd now (some user) query 200 [] db true).err
        = some .noResponseMessage
      ∧ (handleAdd now (some user) query 200 [] db true).db = db) := by
  have hany : (query.any fun p => p.1 != "wrap-with-directory") = false := by
    rw [List.any_eq_false]
    intro x hx
    simp [hq x hx]
  obtain ⟨m0', rest, hcons⟩ :
      ∃ m0' rest, minit ++ [mlast] = m0' :: rest := by
    cases minit with
    | nil => exact ⟨mlast, [], rfl⟩
    | cons a t => exact ⟨a, t ++ [mlast], rfl⟩
  have hm0 : m0' = m0 := by
    rw [hcons] at hhead
    simpa using hhead
  have hlast? : (m0' :: rest).getLast? = some mlast := by
    rw [← hcons]
    exact List.getLast?_concat minit
  have hlast : (m0' :: rest).getLast (List.cons_ne_nil m0' rest) = mlast := by
    have hg := List.getLast?_eq_getLast (m0' :: rest) (List.cons_ne_nil m0' rest)
    rw [hlast?] at hg
    exact (Option.some.injEq .. ▸ hg).symm
  subst hm0
  rw [hcons]
  unfold handleAdd
  simp only [hany, Bool.false_eq_true, if_false, bne_self_eq_false, hlast,
    hparse, if_true]
  refine ⟨⟨?_, ?_⟩, ?_, ?_⟩ <;> trivial

theorem add_canonicalization_witness :
    ((∀ p ∈ [("wrap-with-directory", "true")], p.1 = "wrap-with-directory")
      ∧ (([⟨"f.txt", "hf", "12"⟩] ++ [⟨"", "hdir", "70"⟩]
          : List AddResponseMessage).head? = some ⟨"f.txt", "hf", "12"⟩)
      ∧ parseInt64 (AddResponseMessage.Size ⟨"", "hdir", "70"⟩) = some 70)
    ∧ (((handleAdd 9 (some "john") [("wrap-with-directory", "true")] 200
          ([⟨"f.txt", "hf", "12"⟩] ++ [⟨"", "hdir", "70"⟩]) [] true).db
        = DBAdd 9 [] "john" (AddResponseMessage.Hash ⟨"", "hdir", "70"⟩)
            (if WrapWithDirectory [("wrap-with-directory", "true")] = true
             then (AddResponseMessage.Name ⟨"f.txt", "hf", "12"⟩) ++ " (wrapped)"
             else AddResponseMessage.Name ⟨"", "hdir", "70"⟩) 70
      ∧ (handleAdd 9 (some "john") [("wrap-with-directory", "true")] 200
          ([⟨"f.txt", "hf", "12"⟩] ++ [⟨"", "hdir", "70"⟩]) [] true).err
          = none)
    ∧ ((handleAdd 9 (some "john") [("wrap-with-directory", "true")] 200
          [] [] true).err = some .noResponseMessage
      ∧ (handleAdd 9 (some "john") [("wrap-with-directory", "true")] 200
          [] [] true).db = [])) :=
  ⟨⟨by decide, by decide, by decide⟩,
    add_canonicalization 9 "john" [("wrap-with-directory", "true")] []
      [⟨"f.txt", "hf", "12"⟩] ⟨"f.txt", "hf", "12"⟩ ⟨"", "hdir", "70"⟩ 70
      (by decide) (by decide) (by decide)⟩

/-- A decoded import message whose root part cannot abort the handler:
either it carries no root, or the root has an empty pin error and a
"/"-keyed content id. -/
def goodRoot (m : DAGImportResponseMessage) : Prop :=
  ∀ r, m.Root = some r →
    r.PinErrorMsg = "" ∧ (r.Cid.find? fun p => p.1 == "/").isSome = true

instance (m : DAGImportResponseMessage) : Decidable (goodRoot m) := by
  unfold goodRoot
  rcases hm : m.Root with _ | r
  · exact isTrue (fun r h => by cases h)
  · by_cases h : r.PinErrorMsg = ""
        ∧ (r.Cid.find? fun p => p.1 == "/").isSome = true
    · refine isTrue (fun r2 h2 => ?_)
      injection h2 with heq
      subst heq
      exact h
    · exact isFalse (fun hall => h (hall r rfl))

/-- The root content ids announced by a list of import messages, in
order of arrival. -/
def rootCids (ms : List DAGImportResponseMessage) : List String :=
  ms.filterMap fun m =>
    m.Root.bind fun r => (r.Cid.find? fun p => p.1 == "/").map fun p => p.2

theorem dagLoop_skip (now : Nat) (user : String) (ok : Bool)
    (ms tail : List DAGImportResponseMessage) (cids : List String)
    (db : List Content)
    (hns : ∀ m ∈ ms, m.Stats = none)
    (hg : ∀ m ∈ ms, goodRoot m) :
    dagLoop now user ok (ms ++ tail) cids db
      = dagLoop now user ok tail (cids ++ rootCids ms) db := by
  induction ms generalizing cids with
  | nil => simp [rootCids]
  | cons m t ih =>
    have hm := hns m (List.mem_cons_self m t)
    have hgm := hg m (List.mem_cons_self m t)
    have hns2 : ∀ x ∈ t, x.Stats = none :=
      fun x hx => hns x (List.mem_cons_of_mem m hx)
    have hg2 : ∀ x ∈ t, goodRoot x :=
      fun x hx => hg x (List.mem_cons_of_mem m hx)
    rw [List.cons_append]
    simp only [dagLoop]
    cases hr : m.Root with
    | none =>
      simp only [hr, hm]
      rw [ih cids hns2 hg2]
      simp [rootCids, hr]
    | some r =>
      obtain ⟨hpe, hfind⟩ := hgm r hr
      obtain ⟨p, hp⟩ := Option.isSome_iff_exists.mp hfind
      have hpe2 : (r.PinErrorMsg != "") = false := by simp [hpe]
      simp only [hr, hm, hpe2, Bool.false_eq_true, if_false, hp]
      rw [ih (cids ++ [p.2]) hns2 hg2]
      simp [rootCids, hr, hp, List.append_assoc]

theorem dagLoop_stats (now : Nat) (user : String)
    (s : DAGImportResponseMessage) (st : CarImportStats)
    (rest : List DAGImportResponseMessage) (cids : List String)
    (db : List Content)
    (hs : s.Stats = some st) (hgs : goodRoot s) :
    dagLoop now user true (s :: rest) cids db
      = ((cids ++ rootCids [s]).foldl
          (fun d cid =>
            DBAdd now d user cid (cid ++ " (dag import)") st.BlockBytesCount)
          db, none) := by
  simp only [dagLoop]
  cases hr : s.Root with
  | none =>
    simp only [hr, hs]
    simp [rootCids, hr]
  | some r =>
    obtain ⟨hpe, hfind⟩ := hgs r hr
    obtain ⟨p, hp⟩ := Option.isSome_iff_exists.mp hfind
    have hpe2 : (r.PinErrorMsg != "") = false := by simp [hpe]
    simp only [hr, hpe2, Bool.false_eq_true, if_false, hp, hs]
    simp [rootCids, hr, hp]

/-- C6: Import commit-on-stats rule.  On a successfully forwarded import
whose decoded stream is a stats-free prefix of well-formed root
messages, the first stats message, and an arbitrary remainder, the
handler writes exactly one record per accumulated root content id, each
sized by that stats message's byte count and labelled with the content
id followed by the dag-import suffix, and ignores every message after
the stats message; the same stream without the stats message commits
nothing. -/
theorem dag_import_commit_on_stats (now : Nat) (user : String)
    (ms₁ rest : List DAGImportResponseMessage) (s : DAGImportResponseMessage)
    (st : CarImportStats) (db : List Content)
    (hns : ∀ m ∈ ms₁, m.Stats = none)
    (hg : ∀ m ∈ ms₁, goodRoot m)
    (hs : s.Stats = some st) (hgs : goodRoot s) :
    ((handleDAGImport now (some user) [] 200 (ms₁ ++ s :: rest) db true).db
        = (rootCids (ms₁ ++ [s])).foldl
            (fun d cid =>
              DBAdd now d user cid (cid ++ " (dag import)") st.BlockBytesCount)
            db
      ∧ (handleDAGImport now (some user) [] 200 (ms₁ ++ s :: rest) db true).err
          = none)
    ∧ ((handleDAGImport now (some user) [] 200 ms₁ db true).db = db
      ∧ (handleDAGImport now (some user) [] 200 ms₁ db true).err = none) := by
  constructor
  · unfold handleDAGImport
    dsimp only
    rw [dagLoop_skip now user true ms₁ (s :: rest) [] db hns hg,
      List.nil_append,
      dagLoop_stats now user s st rest (rootCids ms₁) db hs hgs]
    simp [queryHas, rootCids, List.filterMap_append]
  · have hskip := dagLoop_skip now user true ms₁ [] [] db hns hg
    rw [List.append_nil] at hskip
    unfold handleDAGImport
    dsimp only
    rw [hskip]
    simp [queryHas, dagLoop]

theorem dag_import_commit_on_stats_witness :
    ((∀ m ∈ [(⟨some ⟨[("/", "c1")], ""⟩, none⟩ : DAGImportResponseMessage)],
        m.Stats = none)
      ∧ (∀ m ∈ [(⟨some ⟨[("/", "c1")], ""⟩, none⟩ : DAGImportResponseMessage)],
        goodRoot m)
      ∧ (DAGImportResponseMessage.Stats ⟨none, some ⟨3, 99⟩⟩ = some ⟨3, 99⟩)
      ∧ goodRoot ⟨none, some ⟨3, 99⟩⟩)
    ∧ (((handleDAGImport 9 (some "john") [] 200
          ([⟨some ⟨[("/", "c1")], ""⟩, none⟩]
            ++ (⟨none, some ⟨3, 99⟩⟩ : DAGImportResponseMessage)
              :: [⟨some ⟨[("/", "zz")], ""⟩, none⟩]) [] true).db
        = (rootCids ([⟨some ⟨[("/", "c1")], ""⟩, none⟩]
            ++ [⟨none, some ⟨3, 99⟩⟩])).foldl
            (fun d cid =>
              DBAdd 9 d "john" cid (cid ++ " (dag import)")
                (CarImportStats.BlockBytesCount ⟨3, 99⟩)) []
      ∧ (handleDAGImport 9 (some "john") [] 200
          ([⟨some ⟨[("/", "c1")], ""⟩, none⟩]
            ++ (⟨none, some ⟨3, 99⟩⟩ : DAGImportResponseMessage)
              :: [⟨some ⟨[("/", "zz")], ""⟩, none⟩]) [] true).err = none)
    ∧ ((handleDAGImport 9 (some "john") [] 200
          [⟨some ⟨[("/", "c1")], ""⟩, none⟩] [] true).db = []
      ∧ (handleDAGImport 9 (some "john") [] 200
          [⟨some ⟨[("/", "c1")], ""⟩, none⟩] [] true).err = none)) :=
  ⟨⟨by decide, by decide, by decide, by decide⟩,
    dag_import_commit_on_stats 9 "john"
      [⟨some ⟨[("/", "c1")], ""⟩, none⟩]
      [⟨some ⟨[("/", "zz")], ""⟩, none⟩]
      ⟨none, some ⟨3, 99⟩⟩ ⟨3, 99⟩ []
      (by decide) (by decide) (by decide) (by decide)⟩

/-- C7 counterexample: upserting over an existing (identity, contentId)
record with a new label and size leaves the stored label and size
unchanged, while the claim says they are refreshed. -/
theorem db_add_no_refresh_counterexample :
    (DBAdd 10 [⟨"john", 1, some 5, "h", "old", 1⟩] "john" "h" "new" 2).map
        (fun c => (c.name, c.size)) = [("old", 1)]
    ∧ (("old", (1 : Int)) ≠ ("new", 2)) := by decide

theorem pairwise_key_filter_le (db : List Content)
    (hpw : db.Pairwise fun a b => ¬(a.user = b.user ∧ a.hash = b.hash))
    (u h : String) :
    (db.filter fun c => c.user == u && c.hash == h).length ≤ 1 := by
  induction db with
  | nil => simp
  | cons c t ih =>
    rw [List.pairwise_cons] at hpw
    by_cases hk : (c.user == u && c.hash == h) = true
    · have hnil : (t.filter fun c => c.user == u && c.hash == h) = [] := by
        rw [List.filter_eq_nil_iff]
        intro b hb hbb
        simp only [Bool.and_eq_true, beq_iff_eq] at hk hbb
        exact hpw.1 b hb ⟨hk.1.trans hbb.1.symm, hk.2.trans hbb.2.symm⟩
      simp [List.filter_cons, hk, hnil]
    · have hkf : (c.user == u && c.hash == h) = false := by
        simpa using hk
      simp only [List.filter_cons, hkf, Bool.false_eq_true, if_false]
      exact ih hpw.2

/-- C7 amended: starting from a table with at most one record per
(identity, contentId) key, DBAdd inserts a fresh active record when the
key is absent; when the key is present it only clears the removal
marker, keeping the previous label, size and creation time of that
record and leaving all other records untouched; in either case there is
exactly one record for the written key afterwards and key-uniqueness is
preserved. -/
theorem db_add_upsert (now : Nat) (db : List Content)
    (user hash name : String) (size : Int)
    (hpw : db.Pairwise fun a b => ¬(a.user = b.user ∧ a.hash = b.hash)) :
    ((DBAdd now db user hash name size).filter
        fun c => c.user == user && c.hash == hash).length = 1
    ∧ (∀ u h, ((DBAdd now db user hash name size).filter
        fun c => c.user == u && c.hash == h).length ≤ 1)
    ∧ ((¬ ∃ c ∈ db, c.user = user ∧ c.hash = hash) →
        DBAdd now db user hash name size
          = db ++ [⟨user, now, none, hash, name, size⟩])
    ∧ ((∃ c ∈ db, c.user = user ∧ c.hash = hash) →
        (DBAdd now db user hash name size).length = db.length
        ∧ ∀ (i : Nat) (c : Content), db[i]? = some c →
            (DBAdd now db user hash name size)[i]?
              = some (if c.user = user ∧ c.hash = hash then
                  { c with removed := none } else c)) := by
  have huniq := pairwise_key_filter_le db hpw
  have hkey : ∀ c : Content,
      (c.user == user && c.hash == hash) = true ↔
        c.user = user ∧ c.hash = hash := by
    intro c
    simp [Bool.and_eq_true, beq_iff_eq]
  by_cases hex : ∃ c ∈ db, c.user = user ∧ c.hash = hash
  · have hany : (db.any fun c => c.user == user && c.hash == hash) = true := by
      rw [List.any_eq_true]
      obtain ⟨c, hc, hcc⟩ := hex
      exact ⟨c, hc, (hkey c).mpr hcc⟩
    have hdef : DBAdd now db user hash name size
        = db.map fun c =>
            if c.user == user && c.hash == hash then
              { c with removed := none } else c := by
      unfold DBAdd
      rw [hany]
      simp
    have hpres : ∀ (u h : String) (c : Content),
        (((if c.user == user && c.hash == hash then
            { c with removed := none } else c).user == u
          && (if c.user == user && c.hash == hash then
            { c with removed := none } else c).hash == h))
          = (c.user == u && c.hash == h) := by
      intro u h c
      by_cases hc : (c.user == user && c.hash == hash) = true
      · simp only [hc, if_true]
      · simp only [Bool.not_eq_true] at hc
        simp only [hc, Bool.false_eq_true, if_false]
    have hfilt : ∀ u h, ((DBAdd now db user hash name size).filter
        fun c => c.user == u && c.hash == h).length
        = ((db.filter fun c => c.user == u && c.hash == h)).length := by
      intro u h
      rw [hdef, List.filter_map, List.length_map]
      congr 1
      apply List.filter_congr
      intro c hc
      exact hpres u h c
    have hone : ((db.filter fun c => c.user == user && c.hash == hash)).length
        = 1 := by
      obtain ⟨c, hc, hcc⟩ := hex
      have hmem : c ∈ db.filter fun c => c.user == user && c.hash == hash :=
        List.mem_filter.mpr ⟨hc, (hkey c).mpr hcc⟩
      have h1 : 1 ≤ ((db.filter
          fun c => c.user == user && c.hash == hash)).length :=
        List.length_pos.mpr (List.ne_nil_of_mem hmem)
      exact le_antisymm (huniq user hash) h1
    refine ⟨by rw [hfilt]; exact hone,
      fun u h => by rw [hfilt]; exact huniq u h,
      fun hne => absurd hex hne, fun _ => ⟨?_, ?_⟩⟩
    · rw [hdef, List.length_map]
    · intro i c hget
      have hmap : (Option.map (fun c =>
          if c.user == user && c.hash == hash then
            { c with removed := none } else c) (some c))
          = some (if c.user == user && c.hash == hash then
              { c with removed := none } else c) := rfl
      rw [hdef, List.getElem?_map, hget, hmap]
      congr 1
      exact if_congr (hkey c) rfl rfl
  · have hany : (db.any fun c => c.user == user && c.hash == hash) = false := by
      rw [List.any_eq_false]
      intro c hc hcc
      exact hex ⟨c, hc, (hkey c).mp hcc⟩
    have hdef : DBAdd now db user hash name size
        = db ++ [⟨user, now, none, hash, name, size⟩] := by
      unfold DBAdd
      rw [hany]
      simp
    have hnilf : (db.filter fun c => c.user == user && c.hash == hash)
        = [] := by
      rw [List.filter_eq_nil_iff]
      intro c hc hcc
      exact hex ⟨c, hc, (hkey c).mp hcc⟩
    refine ⟨?_, ?_, fun _ => hdef, fun hex2 => absurd hex2 hex⟩
    · rw [hdef, List.filter_append, hnilf]
      simp
    · intro u h
      rw [hdef, List.filter_append, List.length_append]
      by_cases hu : u = user ∧ h = hash
      · obtain ⟨rfl, rfl⟩ := hu
        rw [hnilf]
        simp
      · have hsing : (([⟨user, now, none, hash, name, size⟩]
            : List Content).filter
            fun c => c.user == u && c.hash == h) = [] := by
          rw [List.filter_eq_nil_iff]
          intro c hc hcc
          simp only [List.mem_singleton] at hc
          subst hc
          simp only [Bool.and_eq_true, beq_iff_eq] at hcc
          exact hu ⟨hcc.1.symm, hcc.2.symm⟩
        rw [hsing]
        simpa using huniq u h

theorem db_add_upsert_witness :
    (([⟨"john", 1, some 5, "h", "old", 1⟩] : List Content).Pairwise
        fun a b => ¬(a.user = b.user ∧ a.hash = b.hash))
    ∧ (((DBAdd 10 [⟨"john", 1, some 5, "h", "old", 1⟩] "john" "h" "new"
          2).filter fun c => c.user == "john" && c.hash == "h").length = 1
      ∧ (∀ u h, ((DBAdd 10 [⟨"john", 1, some 5, "h", "old", 1⟩] "john" "h"
          "new" 2).filter fun c => c.user == u && c.hash == h).length ≤ 1)
      ∧ ((¬ ∃ c ∈ ([⟨"john", 1, some 5, "h", "old", 1⟩] : List Content),
            c.user = "john" ∧ c.hash = "h") →
          DBAdd 10 [⟨"john", 1, some 5, "h", "old", 1⟩] "john" "h" "new" 2
            = [⟨"john", 1, some 5, "h", "old", 1⟩]
              ++ [⟨"john", 10, none, "h", "new", 2⟩])
      ∧ ((∃ c ∈ ([⟨"john", 1, some 5, "h", "old", 1⟩] : List Content),
            c.user = "john" ∧ c.hash = "h") →
          (DBAdd 10 [⟨"john", 1, some 5, "h", "old", 1⟩] "john" "h" "new"
            2).length
            = ([⟨"john", 1, some 5, "h", "old", 1⟩] : List Content).length
          ∧ ∀ (i : Nat) (c : Content),
              ([⟨"john", 1, some 5, "h", "old", 1⟩] : List Content)[i]?
                = some c →
              (DBAdd 10 [⟨"john", 1, some 5, "h", "old", 1⟩] "john" "h"
                "new" 2)[i]?
                = some (if c.user = "john" ∧ c.hash = "h" then
                    { c with removed := none } else c))) :=
  ⟨by decide,
    db_add_upsert 10 [⟨"john", 1, some 5, "h", "old", 1⟩] "john" "h" "new" 2
      (by decide)⟩

/-- C8 counterexample: an add request whose backend call succeeded but
whose store write fails produces no caller-visible write at all — in
particular no 500 response — contradicting the claim that a 500 is
surfaced. -/
theorem store_failure_counterexample :
    (handleAdd 9 (some "john") [] 200 [⟨"f.txt", "h1", "10"⟩] [] false).err
        = some .storeError
    ∧ (handleAdd 9 (some "john") [] 200 [⟨"f.txt", "h1", "10"⟩] []
        false).writes = [] := by decide

theorem dagLoop_stats_fail (now : Nat) (user : String)
    (s : DAGImportResponseMessage) (st : CarImportStats)
    (rest : List DAGImportResponseMessage) (cids : List String)
    (db : List Content)
    (hs : s.Stats = some st) (hgs : goodRoot s)
    (hne : cids ++ rootCids [s] ≠ []) :
    dagLoop now user false (s :: rest) cids db = (db, some .storeError) := by
  simp only [dagLoop]
  cases hr : s.Root with
  | none =>
    have hcne : cids ≠ [] := by simpa [rootCids, hr] using hne
    simp [hr, hs, hcne]
  | some r =>
    obtain ⟨hpe, hfind⟩ := hgs r hr
    obtain ⟨p, hp⟩ := Option.isSome_iff_exists.mp hfind
    have hpe2 : (r.PinErrorMsg != "") = false := by simp [hpe]
    simp [hr, hpe2, hp, hs]

/-- C8 amended: when the backend call succeeded but the subsequent
store write fails, the add and import handlers abort with the store
error, write nothing of their own to the caller (no 500 — the
already-relayed backend response stands), and leave the store
unchanged. -/
theorem store_failure_not_surfaced (now : Nat) (user : String)
    (query : List (String × String)) (db : List Content)
    (minit : List AddResponseMessage) (mlast : AddResponseMessage) (n : Int)
    (ms₁ rest : List DAGImportResponseMessage) (s : DAGImportResponseMessage)
    (st : CarImportStats)
    (hq : ∀ p ∈ query, p.1 = "wrap-with-directory")
    (hparse : parseInt64 mlast.Size = some n)
    (hns : ∀ m ∈ ms₁, m.Stats = none) (hg : ∀ m ∈ ms₁, goodRoot m)
    (hs : s.Stats = some st) (hgs : goodRoot s)
    (hroots : rootCids (ms₁ ++ [s]) ≠ []) :
    ((handleAdd now (some user) query 200 (minit ++ [mlast]) db false).err
        = some .storeError
      ∧ (handleAdd now (some user) query 200 (minit ++ [mlast]) db
          false).writes = []
      ∧ (handleAdd now (some user) query 200 (minit ++ [mlast]) db false).db
          = db)
    ∧ ((handleDAGImport now (some user) [] 200 (ms₁ ++ s :: rest) db
          false).err = some .storeError
      ∧ (handleDAGImport now (some user) [] 200 (ms₁ ++ s :: rest) db
          false).writes = []
      ∧ (handleDAGImport now (some user) [] 200 (ms₁ ++ s :: rest) db
          false).db = db) := by
  constructor
  · have hany : (query.any fun p => p.1 != "wrap-with-directory") = false := by
      rw [List.any_eq_false]
      intro x hx
      simp [hq x hx]
    obtain ⟨m0', rest2, hcons⟩ :
        ∃ m0' rest2, minit ++ [mlast] = m0' :: rest2 := by
      cases minit with
      | nil => exact ⟨mlast, [], rfl⟩
      | cons a t => exact ⟨a, t ++ [mlast], rfl⟩
    have hlast? : (m0' :: rest2).getLast? = some mlast := by
      rw [← hcons]
      exact List.getLast?_concat minit
    have hlast : (m0' :: rest2).getLast (List.cons_ne_nil m0' rest2)
        = mlast := by
      have hg2 := List.getLast?_eq_getLast (m0' :: rest2)
        (List.cons_ne_nil m0' rest2)
      rw [hlast?] at hg2
      exact (Option.some.injEq .. ▸ hg2).symm
    rw [hcons]
    unfold handleAdd
    simp only [hany, Bool.false_eq_true, if_false, bne_self_eq_false, hlast,
      hparse, if_true]
    refine ⟨?_, ?_, ?_⟩ <;> trivial
  · have hne2 : rootCids ms₁ ++ rootCids [s] ≠ [] := by
      unfold rootCids
      rw [← List.filterMap_append]
      exact hroots
    unfold handleDAGImport
    dsimp only
    rw [dagLoop_skip now user false ms₁ (s :: rest) [] db hns hg,
      List.nil_append,
      dagLoop_stats_fail now user s st rest (rootCids ms₁) db hs hgs hne2]
    simp [queryHas]

theorem store_failure_not_surfaced_witness :
    ((∀ p ∈ ([] : List (String × String)), p.1 = "wrap-with-directory")
      ∧ parseInt64 (AddResponseMessage.Size ⟨"f.txt", "h1", "10"⟩) = some 10
      ∧ (∀ m ∈ ([] : List DAGImportResponseMessage), m.Stats = none)
      ∧ (∀ m ∈ ([] : List DAGImportResponseMessage), goodRoot m)
      ∧ (DAGImportResponseMessage.Stats
          ⟨some ⟨[("/", "c1")], ""⟩, some ⟨3, 99⟩⟩ = some ⟨3, 99⟩)
      ∧ goodRoot ⟨some ⟨[("/", "c1")], ""⟩, some ⟨3, 99⟩⟩
      ∧ rootCids ([] ++ [⟨some ⟨[("/", "c1")], ""⟩, some ⟨3, 99⟩⟩]) ≠ [])
    ∧ (((handleAdd 9 (some "john") [] 200 ([] ++ [⟨"f.txt", "h1", "10"⟩]) []
          false).err = some .storeError
      ∧ (handleAdd 9 (some "john") [] 200 ([] ++ [⟨"f.txt", "h1", "10"⟩]) []
          false).writes = []
      ∧ (handleAdd 9 (some "john") [] 200 ([] ++ [⟨"f.txt", "h1", "10"⟩]) []
          false).db = [])
    ∧ ((handleDAGImport 9 (some "john") [] 200
          ([] ++ (⟨some ⟨[("/", "c1")], ""⟩, some ⟨3, 99⟩⟩
            : DAGImportResponseMessage) :: []) [] false).err
          = some .storeError
      ∧ (handleDAGImport 9 (some "john") [] 200
          ([] ++ (⟨some ⟨[("/", "c1")], ""⟩, some ⟨3, 99⟩⟩
            : DAGImportResponseMessage) :: []) [] false).writes = []
      ∧ (handleDAGImport 9 (some "john") [] 200
          ([] ++ (⟨some ⟨[("/", "c1")], ""⟩, some ⟨3, 99⟩⟩
            : DAGImportResponseMessage) :: []) [] false).db = [])) :=
  ⟨⟨by decide, by decide, by decide, by decide, by decide, by decide,
      by decide⟩,
    store_failure_not_surfaced 9 "john" [] [] [] ⟨"f.txt", "h1", "10"⟩ 10
      [] [] ⟨some ⟨[("/", "c1")], ""⟩, some ⟨3, 99⟩⟩ ⟨3, 99⟩
      (by decide) (by decide) (by decide) (by decide) (by decide) (by decide)
      (by decide)⟩

end IpfsProxy
